import Mathlib

/-!
Verification of the lofty-rs tag adapters (RIFF INFO and MP4) against the
repository's specification.  The definitions below are a shallow embedding of
`src/components/tags/riff_tag.rs` and `src/components/tags/mp4_tag.rs`:
Rust `u32` values become `Nat` (with explicit `% 2 ^ 32` / `% 2 ^ 16` where the
code casts), Rust `HashMap<String, String>` becomes a function
`String → Option String`, and fallible operations return `Option` / `Except`.
-/

/-! ## Decimal text: models of Rust `str::parse::<u32>` / `::<i32>` and
    `u32::to_string` / `i32::to_string` used by the adapters. -/

/-- Accumulating decimal parser over a list of characters: models the digit
loop of Rust integer `from_str`.  Fails on any non-digit character. -/
def parseDigitsAux : List Char → Nat → Option Nat
  | [], acc => some acc
  | c :: cs, acc =>
    if c.isDigit then parseDigitsAux cs (acc * 10 + (c.toNat - 48)) else none

/-- Strip one optional leading plus sign, as Rust `from_str` does. -/
def stripPlus : List Char → List Char
  | '+' :: rest => rest
  | cs => cs

/-- Model of Rust `str::parse::<u32>`: optional `+` sign, then a nonempty run
of decimal digits whose value fits in 32 bits; anything else is `none`. -/
def parseU32Chars (cs : List Char) : Option Nat :=
  match stripPlus cs with
  | [] => none
  | d :: ds =>
    match parseDigitsAux (d :: ds) 0 with
    | some n => if n < 4294967296 then some n else none
    | none => none

/-- `str::parse::<u32>` on a `String`. -/
def parseU32Str (s : String) : Option Nat :=
  parseU32Chars s.data

/-- Digit characters of a positive natural number, most significant first
(empty for `0`); the recursion mirrors decimal printing. -/
def natToCharsAux (n : Nat) : List Char :=
  if h : n = 0 then []
  else natToCharsAux (n / 10) ++ [Char.ofNat (48 + n % 10)]
termination_by n
decreasing_by
  exact Nat.div_lt_self (Nat.pos_of_ne_zero h) (by omega)

/-- Model of Rust `u32::to_string` (on the `Nat` embedding of `u32`). -/
def u32ToString (n : Nat) : String :=
  if n = 0 then "0" else String.mk (natToCharsAux n)

/-! ### Round-trip facts about the decimal codec. -/

theorem digit_char_isDigit (d : Nat) (h : d < 10) :
    (Char.ofNat (48 + d)).isDigit = true := by
  interval_cases d <;> decide

theorem digit_char_toNat (d : Nat) (h : d < 10) :
    (Char.ofNat (48 + d)).toNat = 48 + d := by
  interval_cases d <;> decide

theorem parseDigitsAux_append (l1 l2 : List Char) (acc : Nat) :
    parseDigitsAux (l1 ++ l2) acc =
      match parseDigitsAux l1 acc with
      | some m => parseDigitsAux l2 m
      | none => none := by
  induction l1 generalizing acc with
  | nil => simp [parseDigitsAux]
  | cons c cs ih =>
    simp only [List.cons_append, parseDigitsAux]
    by_cases hc : c.isDigit
    · simp [hc, ih]
    · simp [hc]

theorem natToCharsAux_all_digits (n : Nat) :
    ∀ c ∈ natToCharsAux n, c.isDigit = true := by
  induction n using Nat.strong_induction_on with
  | _ n ih =>
    by_cases h : n = 0
    · subst h
      simp [natToCharsAux]
    · rw [natToCharsAux]
      simp only [h, dite_false]
      intro c hc
      rcases List.mem_append.mp hc with hl | hr
      · exact ih (n / 10) (Nat.div_lt_self (Nat.pos_of_ne_zero h) (by omega)) c hl
      · simp only [List.mem_singleton] at hr
        subst hr
        exact digit_char_isDigit (n % 10) (Nat.mod_lt _ (by omega))

theorem parseDigitsAux_natToCharsAux (n : Nat) :
    parseDigitsAux (natToCharsAux n) 0 = some n := by
  induction n using Nat.strong_induction_on with
  | _ n ih =>
    by_cases h : n = 0
    · subst h
      simp [natToCharsAux, parseDigitsAux]
    · rw [natToCharsAux]
      simp only [h, dite_false]
      rw [parseDigitsAux_append]
      rw [ih (n / 10) (Nat.div_lt_self (Nat.pos_of_ne_zero h) (by omega))]
      have hd : (n % 10) < 10 := Nat.mod_lt _ (by omega)
      simp only [parseDigitsAux, digit_char_isDigit (n % 10) hd, if_true,
        digit_char_toNat (n % 10) hd]
      have : n / 10 * 10 + (48 + n % 10 - 48) = n := by omega
      rw [this]

theorem stripPlus_of_digits (l : List Char) (h : ∀ c ∈ l, c.isDigit = true) :
    stripPlus l = l := by
  cases l with
  | nil => rfl
  | cons c cs =>
    have hc := h c (List.mem_cons_self c cs)
    by_cases hp : c = '+'
    · subst hp
      simp at hc
    · unfold stripPlus
      split
      · rename_i heq
        injection heq with h1 h2
        exact absurd h1 hp
      · rfl

theorem natToCharsAux_ne_nil (n : Nat) (h : n ≠ 0) : natToCharsAux n ≠ [] := by
  rw [natToCharsAux]
  simp [h]

/-- Parsing the decimal rendering of a 32-bit value returns the value:
`parseU32Str (u32ToString n) = some n` for `n < 2 ^ 32`. -/
theorem parseU32_u32ToString (n : Nat) (h : n < 4294967296) :
    parseU32Str (u32ToString n) = some n := by
  by_cases h0 : n = 0
  · subst h0
    decide
  · unfold parseU32Str u32ToString
    simp only [h0, if_false]
    show parseU32Chars (natToCharsAux n) = some n
    unfold parseU32Chars
    rw [stripPlus_of_digits _ (natToCharsAux_all_digits n)]
    have hparse := parseDigitsAux_natToCharsAux n
    cases hl : natToCharsAux n with
    | nil => exact absurd hl (natToCharsAux_ne_nil n h0)
    | cons d ds =>
      rw [hl] at hparse
      simp only [hl, hparse, h, if_true]

/-- Model of Rust `str::parse::<i32>`: optional sign, then a nonempty run of
decimal digits, with the two-complement 32-bit range check. -/
def parseI32Chars (cs : List Char) : Option Int :=
  match cs with
  | '-' :: rest =>
    match rest with
    | [] => none
    | e :: es =>
      match parseDigitsAux (e :: es) 0 with
      | some n => if n ≤ 2147483648 then some (-(n : Int)) else none
      | none => none
  | _ =>
    match stripPlus cs with
    | [] => none
    | d :: ds =>
      match parseDigitsAux (d :: ds) 0 with
      | some n => if n < 2147483648 then some ((n : Int)) else none
      | none => none

/-- `str::parse::<i32>` on a `String`. -/
def parseI32Str (s : String) : Option Int :=
  parseI32Chars s.data

/-- Model of Rust `i32::to_string` (on the `Int` embedding of `i32`). -/
def i32ToString (y : Int) : String :=
  if y < 0 then String.mk ('-' :: natToCharsAux (-y).toNat) else u32ToString y.toNat

/-- A successful `i32` parse always lands in the 32-bit signed range. -/
theorem parseI32Chars_range (cs : List Char) (y : Int)
    (h : parseI32Chars cs = some y) : -2147483648 ≤ y ∧ y < 2147483648 := by
  unfold parseI32Chars at h
  split at h
  · rename_i rest
    split at h
    · exact absurd h (by simp)
    · rename_i e es
      split at h
      · rename_i n hn
        split at h
        · rename_i hle
          injection h with h
          omega
        · exact absurd h (by simp)
      · exact absurd h (by simp)
  · split at h
    · exact absurd h (by simp)
    · rename_i d ds
      split at h
      · rename_i n hn
        split at h
        · rename_i hlt
          injection h with h
          omega
        · exact absurd h (by simp)
      · exact absurd h (by simp)

/-- Parsing the decimal rendering of a 32-bit signed value returns the value. -/
theorem parseI32_i32ToString (y : Int) (hlo : -2147483648 ≤ y)
    (hhi : y < 2147483648) : parseI32Str (i32ToString y) = some y := by
  by_cases hneg : y < 0
  · have hm : (-y).toNat ≠ 0 := by omega
    unfold parseI32Str i32ToString
    simp only [hneg, if_true]
    show parseI32Chars ('-' :: natToCharsAux (-y).toNat) = some y
    have hparse := parseDigitsAux_natToCharsAux (-y).toNat
    unfold parseI32Chars
    cases hl : natToCharsAux (-y).toNat with
    | nil => exact absurd hl (natToCharsAux_ne_nil _ hm)
    | cons e es =>
      rw [hl] at hparse
      simp only [hparse]
      have hle : (-y).toNat ≤ 2147483648 := by omega
      simp only [hle, if_true]
      congr 1
      omega
  · have hy : y.toNat < 4294967296 := by omega
    have h0 : (0 : Int) ≤ y := by omega
    unfold parseI32Str i32ToString
    simp only [hneg, if_false]
    have hu := parseU32_u32ToString y.toNat hy
    unfold parseU32Str parseU32Chars at hu
    show parseI32Chars (u32ToString y.toNat).data = some y
    unfold parseI32Chars
    split
    · rename_i rest heq
      have hd : ∀ c ∈ (u32ToString y.toNat).data, c.isDigit = true := by
        unfold u32ToString
        by_cases h0n : y.toNat = 0
        · simp only [h0n, if_true]
          decide
        · simp only [h0n, if_false]
          exact natToCharsAux_all_digits _
      have : ('-' : Char) ∈ (u32ToString y.toNat).data := by
        rw [heq]
        exact List.mem_cons_self _ _
      have := hd _ this
      simp at this
    · split at hu
      · exact absurd hu (by simp)
      · rename_i d ds hds
        split at hu
        · rename_i n hn
          split at hu
          · rename_i hlt
            injection hu with hu
            have hn31 : n < 2147483648 := by omega
            simp only [hn31, if_true]
            congr 1
            omega
          · exact absurd hu (by simp)
        · exact absurd hu (by simp)

/-! ## RIFF INFO adapter: embedding of `src/components/tags/riff_tag.rs`.

The inner store is a `HashMap<String, String>`; it is embedded as a function
`String → Option String` (unique keys, point update on insert and remove). -/

/-- `RiffInnerTag`: the native tag store of the RIFF adapter. -/
structure RiffInnerTag where
  data : String → Option String

/-- `RiffInnerTag::default`: an empty store. -/
def RiffInnerTag.default : RiffInnerTag := ⟨fun _ => none⟩

/-- `RiffTag`: the RIFF INFO format adapter (generated by `impl_tag`). -/
structure RiffTag where
  inner : RiffInnerTag

namespace RiffTag

/-- `RiffTag::get_value`. -/
def get_value (t : RiffTag) (key : String) : Option String :=
  t.inner.data key

/-- `RiffTag::set_value` (HashMap insert, last write wins). -/
def set_value (t : RiffTag) (key val : String) : RiffTag :=
  ⟨⟨fun k => if k = key then some val else t.inner.data k⟩⟩

/-- `RiffTag::remove_key` (HashMap remove). -/
def remove_key (t : RiffTag) (key : String) : RiffTag :=
  ⟨⟨fun k => if k = key then none else t.inner.data k⟩⟩

/-- `AudioTagEdit::title` for `RiffTag`. -/
def title (t : RiffTag) : Option String := get_value t "INAM"

/-- `AudioTagEdit::set_title` for `RiffTag`. -/
def set_title (t : RiffTag) (v : String) : RiffTag := set_value t "INAM" v

/-- `AudioTagEdit::remove_title` for `RiffTag`. -/
def remove_title (t : RiffTag) : RiffTag := remove_key t "INAM"

/-- `AudioTagEdit::artist_str` for `RiffTag`. -/
def artist_str (t : RiffTag) : Option String := get_value t "IART"

/-- `AudioTagEdit::album_title` for `RiffTag`: probes `IPRD`, then `ALBU`. -/
def album_title (t : RiffTag) : Option String :=
  Option.orElse (get_value t "IPRD") (fun _ => get_value t "ALBU")

/-- `AudioTagEdit::set_album_title` for `RiffTag`. -/
def set_album_title (t : RiffTag) (v : String) : RiffTag := set_value t "IPRD" v

/-- `AudioTagEdit::track_number` for `RiffTag`: probes `ITRK`, `IPRT`, `TRAC`
in order, then parses the first hit; an unparsable hit yields `None`. -/
def track_number (t : RiffTag) : Option Nat :=
  match (Option.orElse (Option.orElse (get_value t "ITRK")
      (fun _ => get_value t "IPRT")) (fun _ => get_value t "TRAC")).map
      parseU32Str with
  | some (some n) => some n
  | _ => none

/-- `AudioTagEdit::set_track_number` for `RiffTag`. -/
def set_track_number (t : RiffTag) (n : Nat) : RiffTag :=
  set_value t "ITRK" (u32ToString n)

/-- `AudioTagEdit::remove_track_number` for `RiffTag`. -/
def remove_track_number (t : RiffTag) : RiffTag := remove_key t "ITRK"

/-- `AudioTagEdit::total_tracks` for `RiffTag`: reads `IFRM`. -/
def total_tracks (t : RiffTag) : Option Nat :=
  match (get_value t "IFRM").map parseU32Str with
  | some (some n) => some n
  | _ => none

/-- `AudioTagEdit::set_total_tracks` for `RiffTag`. -/
def set_total_tracks (t : RiffTag) (n : Nat) : RiffTag :=
  set_value t "IFRM" (u32ToString n)

/-- `AudioTagEdit::remove_total_tracks` for `RiffTag`. -/
def remove_total_tracks (t : RiffTag) : RiffTag := remove_key t "IFRM"

/-- `AudioTagEdit::disc_number` for `RiffTag`: reads `DISC`. -/
def disc_number (t : RiffTag) : Option Nat :=
  match (get_value t "DISC").map parseU32Str with
  | some (some n) => some n
  | _ => none

/-- `AudioTagEdit::set_disc_number` for `RiffTag`. -/
def set_disc_number (t : RiffTag) (n : Nat) : RiffTag :=
  set_value t "DISC" (u32ToString n)

/-- `AudioTagEdit::remove_disc_number` for `RiffTag`. -/
def remove_disc_number (t : RiffTag) : RiffTag := remove_key t "DISC"

/-- `AudioTagEdit::total_discs` for `RiffTag`: delegates to `disc_number`. -/
def total_discs (t : RiffTag) : Option Nat := disc_number t

/-- `AudioTagEdit::set_total_discs` for `RiffTag`: delegates to
`set_disc_number`. -/
def set_total_discs (t : RiffTag) (n : Nat) : RiffTag := set_disc_number t n

/-- `AudioTagEdit::remove_total_discs` for `RiffTag`: delegates to
`remove_disc_number`. -/
def remove_total_discs (t : RiffTag) : RiffTag := remove_disc_number t

end RiffTag

/-! ## Claim theorems about the RIFF adapter. -/

/-- A concrete RIFF store populating two candidates for the track-number field
and two candidates for the album-title field. -/
def riffPrecedenceStore : RiffTag :=
  ⟨⟨fun k =>
    if k = "ITRK" then some "3"
    else if k = "IPRT" then some "7"
    else if k = "IPRD" then some "AlbumA"
    else if k = "ALBU" then some "AlbumB"
    else none⟩⟩

/-- C3: when several candidate identifiers for a field hold an entry, the
getter deterministically uses the first candidate in precedence order: with
both `ITRK` and `IPRT` present, `track_number` parses the `ITRK` value; with
both `IPRD` and `ALBU` present, `album_title` returns the `IPRD` value. -/
theorem riff_field_precedence (d : RiffTag) (s1 s2 t1 t2 : String) (n : Nat)
    (h1 : d.get_value "ITRK" = some s1) (h2 : d.get_value "IPRT" = some s2)
    (hp : parseU32Str s1 = some n)
    (h3 : d.get_value "IPRD" = some t1) (h4 : d.get_value "ALBU" = some t2) :
    d.track_number = some n ∧ d.album_title = some t1 := by
  constructor
  · unfold RiffTag.track_number
    rw [h1]
    simp [Option.orElse, hp]
  · unfold RiffTag.album_title
    rw [h3]
    simp [Option.orElse]

/-- Witness for C3 at the concrete store `riffPrecedenceStore`. -/
theorem riff_field_precedence_witness :
    riffPrecedenceStore.get_value "ITRK" = some "3" ∧
    riffPrecedenceStore.get_value "IPRT" = some "7" ∧
    parseU32Str "3" = some 3 ∧
    riffPrecedenceStore.get_value "IPRD" = some "AlbumA" ∧
    riffPrecedenceStore.get_value "ALBU" = some "AlbumB" ∧
    riffPrecedenceStore.track_number = some 3 ∧
    riffPrecedenceStore.album_title = some "AlbumA" := by
  refine ⟨by decide, by decide, by decide, by decide, by decide, ?_⟩
  exact riff_field_precedence riffPrecedenceStore "3" "7" "AlbumA" "AlbumB" 3
    (by decide) (by decide) (by decide) (by decide) (by decide)

/-- A concrete RIFF store holding unparsable text under every numeric
identifier. -/
def riffUnparsableStore : RiffTag :=
  ⟨⟨fun k =>
    if k = "ITRK" then some "abc"
    else if k = "IFRM" then some "abc"
    else if k = "DISC" then some "abc"
    else none⟩⟩

/-- C5: when the text stored under a numeric field's first-hit identifier does
not parse as a decimal number, the numeric getter returns `none` (the getters
are total functions into `Option Nat`: no error, no failed read). -/
theorem riff_numeric_soft_fail (d : RiffTag) (s : String)
    (hp : parseU32Str s = none) :
    (d.get_value "ITRK" = some s → d.track_number = none) ∧
    (d.get_value "IFRM" = some s → d.total_tracks = none) ∧
    (d.get_value "DISC" = some s → d.disc_number = none) := by
  refine ⟨fun h1 => ?_, fun h2 => ?_, fun h3 => ?_⟩
  · unfold RiffTag.track_number
    rw [h1]
    simp [Option.orElse, hp]
  · unfold RiffTag.total_tracks
    rw [h2]
    simp [hp]
  · unfold RiffTag.disc_number
    rw [h3]
    simp [hp]

/-- Witness for C5 at the concrete store `riffUnparsableStore`. -/
theorem riff_numeric_soft_fail_witness :
    parseU32Str "abc" = none ∧
    (riffUnparsableStore.track_number = none ∧
      riffUnparsableStore.total_tracks = none ∧
      riffUnparsableStore.disc_number = none) := by
  have h := riff_numeric_soft_fail riffUnparsableStore "abc" (by decide)
  exact ⟨by decide, h.1 (by decide), h.2.1 (by decide), h.2.2 (by decide)⟩

/-- C10: `total_discs` always returns exactly what `disc_number` returns,
`set_total_discs n` overwrites the single shared `DISC` entry (so
`disc_number` then returns `some n`), and `remove_total_discs` removes the
`DISC` entry: the two fields are not independent. -/
theorem riff_total_discs_aliases_disc_number (d : RiffTag) (n : Nat)
    (h : n < 4294967296) :
    d.total_discs = d.disc_number ∧
    (d.set_total_discs n).disc_number = some n ∧
    (d.remove_total_discs).get_value "DISC" = none ∧
    (d.remove_total_discs).disc_number = none := by
  refine ⟨rfl, ?_, ?_, ?_⟩
  · unfold RiffTag.set_total_discs RiffTag.set_disc_number RiffTag.disc_number
    show (match (RiffTag.get_value (d.set_value "DISC" (u32ToString n))
        "DISC").map parseU32Str with
      | some (some n) => some n
      | _ => none) = some n
    have : RiffTag.get_value (d.set_value "DISC" (u32ToString n)) "DISC" =
        some (u32ToString n) := by
      unfold RiffTag.get_value RiffTag.set_value
      simp
    rw [this]
    simp [parseU32_u32ToString n h]
  · unfold RiffTag.remove_total_discs RiffTag.remove_disc_number
      RiffTag.remove_key RiffTag.get_value
    simp
  · unfold RiffTag.disc_number RiffTag.remove_total_discs
      RiffTag.remove_disc_number RiffTag.remove_key RiffTag.get_value
    simp

/-- Witness for C10 at the empty store and `n = 4`. -/
theorem riff_total_discs_aliases_witness :
    (4 : Nat) < 4294967296 ∧
    ((RiffTag.mk RiffInnerTag.default).set_total_discs 4).disc_number =
      some 4 := by
  refine ⟨by decide, ?_⟩
  exact (riff_total_discs_aliases_disc_number (RiffTag.mk RiffInnerTag.default)
    4 (by decide)).2.1

/-! ## Chunk codec.

`RiffTag::read_from` and `AudioTagWrite::write_to` delegate to
`riff::read_from` / `riff::write_to` in `src/components/logic/riff.rs`, a file
of this repository that is not part of the provided sources.  The codec below
is therefore modelled from the spec (sections 4.1 and 6). -/

/-- Modelled from the spec: a chunk is a 4-byte identifier plus a byte
payload (`src/components/logic/riff.rs` is missing from the sources). -/
structure Chunk where
  ident : List Nat
  payload : List Nat
deriving DecidableEq

/-- Little-endian 4-byte rendering of a 32-bit length. -/
def u32le (n : Nat) : List Nat :=
  [n % 256, n / 256 % 256, n / 65536 % 256, n / 16777216 % 256]

/-- Read a 4-byte little-endian length from the front of a byte stream. -/
def readU32le : List Nat → Option (Nat × List Nat)
  | b0 :: b1 :: b2 :: b3 :: rest =>
    some (b0 + 256 * b1 + 65536 * b2 + 16777216 * b3, rest)
  | _ => none

/-- Modelled from the spec: serialize one chunk as identifier + 4-byte LE
length + payload + one pad byte iff the payload length is odd (the pad byte is
not counted in the length field). -/
def serializeChunk (c : Chunk) : List Nat :=
  c.ident ++ u32le c.payload.length ++ c.payload ++
    (if c.payload.length % 2 = 1 then [0] else [])

/-- Modelled from the spec: chunks are serialized in the order supplied. -/
def serializeChunks (cs : List Chunk) : List Nat :=
  (cs.map serializeChunk).flatten

/-- Take exactly `n` elements from the front of a list, failing when the list
is shorter (a declared length reading past the stream end). -/
def takeExact : Nat → List Nat → Option (List Nat × List Nat)
  | 0, l => some ([], l)
  | _ + 1, [] => none
  | n + 1, a :: l =>
    match takeExact n l with
    | some (xs, rest) => some (a :: xs, rest)
    | none => none

/-- Modelled from the spec: repeatedly read a 4-byte identifier, a 4-byte LE
length, exactly that many payload bytes, then skip one pad byte if the length
is odd; stop at end of stream.  The fuel argument bounds the number of chunks
and is instantiated with the stream length. -/
def parseChunksAux : Nat → List Nat → Option (List Chunk)
  | _, [] => some []
  | 0, _ :: _ => none
  | fuel + 1, b :: bs =>
    match takeExact 4 (b :: bs) with
    | none => none
    | some (ident4, r1) =>
      match readU32le r1 with
      | none => none
      | some (len, r2) =>
        match takeExact len r2 with
        | none => none
        | some (pay, r3) =>
          match parseChunksAux fuel (if len % 2 = 1 then r3.drop 1 else r3) with
          | some cs => some (⟨ident4, pay⟩ :: cs)
          | none => none

/-- Modelled from the spec: parse a byte stream into its chunk sequence. -/
def parseChunks (bytes : List Nat) : Option (List Chunk) :=
  parseChunksAux bytes.length bytes

theorem takeExact_append (l1 l2 : List Nat) :
    takeExact l1.length (l1 ++ l2) = some (l1, l2) := by
  induction l1 with
  | nil => simp [takeExact]
  | cons a l ih => simp [takeExact, ih]

theorem readU32le_u32le (n : Nat) (r : List Nat) (h : n < 4294967296) :
    readU32le (u32le n ++ r) = some (n, r) := by
  have hn : n % 256 + 256 * (n / 256 % 256) + 65536 * (n / 65536 % 256) +
      16777216 * (n / 16777216 % 256) = n := by omega
  simp [u32le, readU32le, hn]

theorem length_four_list (l : List Nat) (h : l.length = 4) :
    ∃ a b c d, l = [a, b, c, d] := by
  cases l with
  | nil => simp at h
  | cons a l1 =>
    cases l1 with
    | nil => simp at h
    | cons b l2 =>
      cases l2 with
      | nil => simp at h
      | cons c l3 =>
        cases l3 with
        | nil => simp at h
        | cons d l4 =>
          cases l4 with
          | nil => exact ⟨a, b, c, d, rfl⟩
          | cons e l5 => simp at h

theorem parseChunksAux_serialize (cs : List Chunk) :
    ∀ fuel : Nat, cs.length ≤ fuel →
    (∀ c ∈ cs, c.ident.length = 4 ∧ c.payload.length < 4294967296) →
    parseChunksAux fuel (serializeChunks cs) = some cs := by
  induction cs with
  | nil =>
    intro fuel _ _
    cases fuel <;> simp [serializeChunks, parseChunksAux]
  | cons c cs ih =>
    intro fuel hfuel hwf
    obtain ⟨hid, hlen⟩ := hwf c (List.mem_cons_self c cs)
    obtain ⟨b0, b1, b2, b3, hid4⟩ := length_four_list c.ident hid
    cases fuel with
    | zero => simp at hfuel
    | succ f =>
      have hser : serializeChunks (c :: cs) =
          c.ident ++ (u32le c.payload.length ++ (c.payload ++
            ((if c.payload.length % 2 = 1 then [0] else []) ++
              serializeChunks cs))) := by
        simp [serializeChunks, serializeChunk, List.flatten]
      rw [hser, hid4]
      simp only [List.cons_append, List.nil_append]
      rw [parseChunksAux]
      have htake : takeExact 4 (b0 :: b1 :: b2 :: b3 :: (u32le c.payload.length
          ++ (c.payload ++ ((if c.payload.length % 2 = 1 then [0] else []) ++
            serializeChunks cs)))) =
          some ([b0, b1, b2, b3], u32le c.payload.length ++ (c.payload ++
            ((if c.payload.length % 2 = 1 then [0] else []) ++
              serializeChunks cs))) := by
        simp [takeExact]
      simp only [htake]
      simp only [readU32le_u32le _ _ hlen]
      have htake2 := takeExact_append c.payload
        ((if c.payload.length % 2 = 1 then [0] else []) ++ serializeChunks cs)
      simp only [htake2]
      have hrest : (if c.payload.length % 2 = 1
          then (((if c.payload.length % 2 = 1 then ([0] : List Nat) else []) ++
            serializeChunks cs).drop 1)
          else ((if c.payload.length % 2 = 1 then ([0] : List Nat) else []) ++
            serializeChunks cs)) = serializeChunks cs := by
        by_cases hodd : c.payload.length % 2 = 1 <;> simp [hodd]
      simp only [hrest]
      simp only [ih f (by simpa using hfuel)
        (fun x hx => hwf x (List.mem_cons_of_mem c hx))]
      simp [← hid4]

/-- C2: parsing the serialization of any chunk sequence returns the sequence
exactly: identifiers, payloads and order are preserved and padding bytes do
not appear in the result. -/
theorem chunk_codec_roundtrip (cs : List Chunk)
    (h : ∀ c ∈ cs, c.ident.length = 4 ∧ c.payload.length < 4294967296) :
    parseChunks (serializeChunks cs) = some cs := by
  unfold parseChunks
  refine parseChunksAux_serialize cs _ ?_ h
  induction cs with
  | nil => simp [serializeChunks]
  | cons c cs ih =>
    have h1 : serializeChunks (c :: cs) = serializeChunk c ++ serializeChunks cs := by
      simp [serializeChunks, List.flatten]
    have h2 : 1 ≤ (serializeChunk c).length := by
      simp [serializeChunk, u32le]
      omega
    have ih2 := ih (fun x hx => h x (List.mem_cons_of_mem c hx))
    simp only [h1, List.length_append, List.length_cons]
    omega

/-- A concrete two-chunk sequence, the first with an odd-length payload. -/
def demoChunks : List Chunk :=
  [⟨[73, 78, 65, 77], [83, 111, 110, 103, 33]⟩, ⟨[73, 84, 82, 75], [51]⟩]

/-- Witness for C2 at the concrete sequence `demoChunks`. -/
theorem chunk_codec_roundtrip_witness :
    (∀ c ∈ demoChunks, c.ident.length = 4 ∧ c.payload.length < 4294967296) ∧
    parseChunks (serializeChunks demoChunks) = some demoChunks :=
  ⟨by decide, chunk_codec_roundtrip demoChunks (by decide)⟩

/-! ## MP4 adapter: embedding of `src/components/tags/mp4_tag.rs`.

`mp4ameta::Tag` is an external collaborator (spec section 6): it is embedded
as a record of the fields the adapter reads and writes, with its `u16` track
and disc atoms as `Nat` values kept below `2 ^ 16` by the adapter's casts. -/

/-- lofty `MimeType` value object (the variants the MP4 adapter can meet). -/
inductive MimeType
  | png
  | jpeg
  | tiff
  | bmp
  | gif
deriving DecidableEq

/-- The external `mp4ameta::Data` typed atom value. -/
inductive Mp4Data
  | reserved (bytes : List Nat)
  | utf8 (s : String)
  | utf16 (s : String)
  | jpeg (bytes : List Nat)
  | png (bytes : List Nat)
  | beSigned (bytes : List Nat)
deriving DecidableEq

/-- lofty `Picture` value object: raw bytes plus a mime type. -/
structure Picture where
  data : List Nat
  mime_type : MimeType
deriving DecidableEq

/-- lofty `Error` (the variant produced by the MP4 adapter's conversions). -/
inductive Error
  | notAPicture
deriving DecidableEq

/-- Model of the external `mp4ameta::Tag` (`Mp4InnerTag` in the source). -/
structure Mp4InnerTag where
  title : Option String
  artists : List String
  year : Option String
  album : Option String
  album_artists : List String
  artwork : Option Mp4Data
  track_number : Option Nat
  total_tracks : Option Nat
  disc_number : Option Nat
  total_discs : Option Nat
deriving DecidableEq

/-- The empty `mp4ameta::Tag`, as produced by `Mp4Tag::new`. -/
def Mp4InnerTag.empty : Mp4InnerTag :=
  ⟨none, [], none, none, [], none, none, none, none, none⟩

/-- `Mp4Tag`, the MP4 format adapter: a newtype over `Mp4InnerTag`
(the `.0` field of the tuple struct generated by `impl_tag`). -/
structure Mp4Tag where
  inner : Mp4InnerTag
deriving DecidableEq

namespace Mp4Tag

/-- `Mp4Tag::new`. -/
def new : Mp4Tag := ⟨Mp4InnerTag.empty⟩

/-- `AudioTagEdit::title` for `Mp4Tag`. -/
def title (t : Mp4Tag) : Option String := t.inner.title

/-- `AudioTagEdit::set_title` for `Mp4Tag`. -/
def set_title (t : Mp4Tag) (v : String) : Mp4Tag :=
  ⟨{ t.inner with title := some v }⟩

/-- `AudioTagEdit::artists` for `Mp4Tag`: folds the inner artist entries into
a vector and maps an empty result to `none`. -/
def artists (t : Mp4Tag) : Option (List String) :=
  let v := t.inner.artists.foldl (fun v a => v ++ [a]) []
  if v.isEmpty then none else some v

/-- `AudioTagEdit::add_artist` for `Mp4Tag`: appends one artist entry. -/
def add_artist (t : Mp4Tag) (a : String) : Mp4Tag :=
  ⟨{ t.inner with artists := t.inner.artists ++ [a] }⟩

/-- `AudioTagEdit::year` for `Mp4Tag`: parses the stored year text as `i32`,
soft-failing to `none`. -/
def year (t : Mp4Tag) : Option Int := t.inner.year.bind parseI32Str

/-- `AudioTagEdit::set_year` for `Mp4Tag`: stores the decimal text. -/
def set_year (t : Mp4Tag) (y : Int) : Mp4Tag :=
  ⟨{ t.inner with year := some (i32ToString y) }⟩

/-- `AudioTagEdit::album_title` for `Mp4Tag`. -/
def album_title (t : Mp4Tag) : Option String := t.inner.album

/-- `AudioTagEdit::set_album_title` for `Mp4Tag`. -/
def set_album_title (t : Mp4Tag) (v : String) : Mp4Tag :=
  ⟨{ t.inner with album := some v }⟩

/-- `AudioTagEdit::album_artists` for `Mp4Tag`: peeks the inner iterator and
maps an empty one to `none`. -/
def album_artists (t : Mp4Tag) : Option (List String) :=
  if t.inner.album_artists.isEmpty then none else some t.inner.album_artists

/-- `AudioTagEdit::add_album_artist` for `Mp4Tag`. -/
def add_album_artist (t : Mp4Tag) (a : String) : Mp4Tag :=
  ⟨{ t.inner with album_artists := t.inner.album_artists ++ [a] }⟩

/-- `AudioTagEdit::album_cover` for `Mp4Tag`: only `Jpeg` and `Png` artwork
yields a `Picture`; any other data kind yields `none`. -/
def album_cover (t : Mp4Tag) : Option Picture :=
  t.inner.artwork.bind fun d =>
    match d with
    | Mp4Data.jpeg b => some ⟨b, MimeType.jpeg⟩
    | Mp4Data.png b => some ⟨b, MimeType.png⟩
    | _ => none

/-- `AudioTagEdit::remove_album_cover` for `Mp4Tag`. -/
def remove_album_cover (t : Mp4Tag) : Mp4Tag :=
  ⟨{ t.inner with artwork := none }⟩

/-- `AudioTagEdit::set_album_cover` for `Mp4Tag`: removes the old artwork and
adds the new one; `none` models the `panic!` branch taken for any mime type
other than `Png` and `Jpeg`. -/
def set_album_cover (t : Mp4Tag) (cover : Picture) : Option Mp4Tag :=
  let t2 := t.remove_album_cover
  match cover.mime_type with
  | MimeType.png => some ⟨{ t2.inner with artwork := some (Mp4Data.png cover.data) }⟩
  | MimeType.jpeg => some ⟨{ t2.inner with artwork := some (Mp4Data.jpeg cover.data) }⟩
  | _ => none

/-- `AudioTagEdit::track_number` for `Mp4Tag` (`u32::from` on the `u16`). -/
def track_number (t : Mp4Tag) : Option Nat := t.inner.track_number

/-- `AudioTagEdit::set_track_number` for `Mp4Tag`: the argument is cast
`as u16`, truncating to 16 bits. -/
def set_track_number (t : Mp4Tag) (n : Nat) : Mp4Tag :=
  ⟨{ t.inner with track_number := some (n % 65536) }⟩

/-- `AudioTagEdit::total_tracks` for `Mp4Tag`. -/
def total_tracks (t : Mp4Tag) : Option Nat := t.inner.total_tracks

/-- `AudioTagEdit::set_total_tracks` for `Mp4Tag` (`as u16` cast). -/
def set_total_tracks (t : Mp4Tag) (n : Nat) : Mp4Tag :=
  ⟨{ t.inner with total_tracks := some (n % 65536) }⟩

/-- `AudioTagEdit::disc_number` for `Mp4Tag`. -/
def disc_number (t : Mp4Tag) : Option Nat := t.inner.disc_number

/-- `AudioTagEdit::set_disc_number` for `Mp4Tag` (`as u16` cast). -/
def set_disc_number (t : Mp4Tag) (n : Nat) : Mp4Tag :=
  ⟨{ t.inner with disc_number := some (n % 65536) }⟩

/-- `AudioTagEdit::total_discs` for `Mp4Tag`. -/
def total_discs (t : Mp4Tag) : Option Nat := t.inner.total_discs

/-- `AudioTagEdit::set_total_discs` for `Mp4Tag` (`as u16` cast). -/
def set_total_discs (t : Mp4Tag) (n : Nat) : Mp4Tag :=
  ⟨{ t.inner with total_discs := some (n % 65536) }⟩

/-- Modelled from the spec: the `AudioTag::track` convenience accessor pairs
`track_number` with `total_tracks` (the trait lives outside the given
sources). -/
def track (t : Mp4Tag) : Option Nat × Option Nat := (t.track_number, t.total_tracks)

/-- Modelled from the spec: the `AudioTag::disc` convenience accessor pairs
`disc_number` with `total_discs`. -/
def disc (t : Mp4Tag) : Option Nat × Option Nat := (t.disc_number, t.total_discs)

end Mp4Tag

/-- lofty `Album` value object nested in the Normalized Tag. -/
@[ext]
structure Album where
  title : Option String
  artists : Option (List String)
  cover : Option Picture
deriving DecidableEq

/-- `Album::new`. -/
def Album.new (t : Option String) (a : Option (List String))
    (c : Option Picture) : Album := ⟨t, a, c⟩

/-- lofty `AnyTag`, the Normalized Tag: an `Option` per recognized field plus
the nested album value (field set as used by the MP4 conversions in src). -/
@[ext]
structure AnyTag where
  title : Option String
  artists : Option (List String)
  year : Option Int
  album : Album
  track_number : Option Nat
  total_tracks : Option Nat
  disc_number : Option Nat
  total_discs : Option Nat
  comments : Option (List String)
  date : Option String
  duration_ms : Option Nat
deriving DecidableEq

/-- `From<&Mp4Tag> for AnyTag` (src lines 24-47): populate every field from
the adapter's getters; `comments`, `date` and `duration_ms` stay `None`. -/
def anyTagFromMp4 (inp : Mp4Tag) : AnyTag :=
  { title := inp.title
    artists := inp.artists.map (fun i => i)
    year := inp.year.map (fun y => y)
    album := Album.new inp.album_title inp.album_artists inp.album_cover
    track_number := inp.track.1
    total_tracks := inp.track.2
    disc_number := inp.disc.1
    total_discs := inp.disc.2
    comments := none
    date := none
    duration_ms := none }

/-- `From<AnyTag> for Mp4Tag` (src lines 49-82): apply each `Some`-valued
field to a fresh adapter, in source order, with one `add` per element of the
multi-valued fields. -/
def mp4TagFromAny (inp : AnyTag) : Mp4Tag :=
  let tag := Mp4Tag.new
  let tag := match inp.title with
    | some v => tag.set_title v
    | none => tag
  let tag := match inp.artists with
    | some i => i.foldl (fun tg a => tg.add_artist a) tag
    | none => tag
  let tag := match inp.year with
    | some v => tag.set_year v
    | none => tag
  let tag := match inp.album.title with
    | some v => tag.set_album_title v
    | none => tag
  let tag := match inp.album.artists with
    | some i => i.foldl (fun tg a => tg.add_album_artist a) tag
    | none => tag
  let tag := match inp.track_number with
    | some v => tag.set_track_number v
    | none => tag
  let tag := match inp.total_tracks with
    | some v => tag.set_total_tracks v
    | none => tag
  let tag := match inp.disc_number with
    | some v => tag.set_disc_number v
    | none => tag
  let tag := match inp.total_discs with
    | some v => tag.set_total_discs v
    | none => tag
  tag

/-- `TryFrom<&mp4ameta::Data> for Picture` (src lines 84-99). -/
def pictureTryFromData (inp : Mp4Data) : Except Error Picture :=
  match inp with
  | Mp4Data.png d => Except.ok ⟨d, MimeType.png⟩
  | Mp4Data.jpeg d => Except.ok ⟨d, MimeType.jpeg⟩
  | _ => Except.error Error.notAPicture

/-! ### Characterization lemmas for the MP4 conversions. -/

theorem foldl_push (l acc : List String) :
    l.foldl (fun v a => v ++ [a]) acc = acc ++ l := by
  induction l generalizing acc with
  | nil => simp
  | cons a l ih => simp [List.foldl_cons, ih]

theorem mp4_artists_eq (t : Mp4Tag) :
    t.artists = if t.inner.artists.isEmpty then none
      else some t.inner.artists := by
  unfold Mp4Tag.artists
  simp [foldl_push]

theorem foldl_add_artist (l : List String) (t : Mp4Tag) :
    (l.foldl (fun tg a => tg.add_artist a) t).inner =
      { t.inner with artists := t.inner.artists ++ l } := by
  induction l generalizing t with
  | nil => simp
  | cons a l ih =>
    rw [List.foldl_cons, ih]
    simp [Mp4Tag.add_artist]

theorem foldl_add_album_artist (l : List String) (t : Mp4Tag) :
    (l.foldl (fun tg a => tg.add_album_artist a) t).inner =
      { t.inner with album_artists := t.inner.album_artists ++ l } := by
  induction l generalizing t with
  | nil => simp
  | cons a l ih =>
    rw [List.foldl_cons, ih]
    simp [Mp4Tag.add_album_artist]

theorem mp4TagFromAny_inner (a : AnyTag) :
    (mp4TagFromAny a).inner =
      { title := a.title
        artists := a.artists.getD []
        year := a.year.map i32ToString
        album := a.album.title
        album_artists := a.album.artists.getD []
        artwork := none
        track_number := a.track_number.map (fun v => v % 65536)
        total_tracks := a.total_tracks.map (fun v => v % 65536)
        disc_number := a.disc_number.map (fun v => v % 65536)
        total_discs := a.total_discs.map (fun v => v % 65536) } := by
  obtain ⟨ti, ar, yr, ⟨abt, aba, abc⟩, tn, tt, dn, td, cm, dt, du⟩ := a
  cases ti <;> cases ar <;> cases yr <;> cases abt <;> cases aba <;>
    cases tn <;> cases tt <;> cases dn <;> cases td <;>
    simp [mp4TagFromAny, Mp4Tag.new, Mp4InnerTag.empty, Mp4Tag.set_title,
      Mp4Tag.set_year, Mp4Tag.set_album_title, Mp4Tag.set_track_number,
      Mp4Tag.set_total_tracks, Mp4Tag.set_disc_number, Mp4Tag.set_total_discs,
      foldl_add_artist, foldl_add_album_artist]

/-! ## Claim theorems about the MP4 adapter. -/

/-- C4: every numeric setter of the MP4 adapter casts its `u32` argument
`as u16`, so the stored value is the argument modulo `2 ^ 16` and the
set-then-get identity holds exactly for arguments below `65536`. -/
theorem mp4_numeric_setters_truncate (t : Mp4Tag) (n : Nat) :
    (t.set_track_number n).track_number = some (n % 65536) ∧
    (t.set_total_tracks n).total_tracks = some (n % 65536) ∧
    (t.set_disc_number n).disc_number = some (n % 65536) ∧
    (t.set_total_discs n).total_discs = some (n % 65536) ∧
    ((t.set_track_number n).track_number = some n ↔ n < 65536) := by
  refine ⟨rfl, rfl, rfl, rfl, ?_⟩
  unfold Mp4Tag.set_track_number Mp4Tag.track_number
  simp only [Option.some.injEq]
  omega

/-- C6: converting a Normalized Tag into a fresh MP4 adapter applies exactly
the `Some`-valued fields (title, artists, year, album title, album artists,
track number, total tracks, disc number, total discs), with the multi-valued
fields appended element by element; the cover and every other atom of the
fresh adapter stay empty. -/
theorem mp4_into_applies_some_fields (a : AnyTag) :
    (mp4TagFromAny a).inner =
      { title := a.title
        artists := a.artists.getD []
        year := a.year.map i32ToString
        album := a.album.title
        album_artists := a.album.artists.getD []
        artwork := none
        track_number := a.track_number.map (fun v => v % 65536)
        total_tracks := a.total_tracks.map (fun v => v % 65536)
        disc_number := a.disc_number.map (fun v => v % 65536)
        total_discs := a.total_discs.map (fun v => v % 65536) } :=
  mp4TagFromAny_inner a

/-- C7: an adapter holding zero artist entries yields `artists() = none`
(likewise `album_artists()`), and neither getter ever returns `some []`. -/
theorem mp4_zero_artists_is_none (t : Mp4Tag) :
    (t.inner.artists = [] → t.artists = none) ∧
    (∀ l, t.artists = some l → l ≠ []) ∧
    (t.inner.album_artists = [] → t.album_artists = none) ∧
    (∀ l, t.album_artists = some l → l ≠ []) := by
  refine ⟨fun h => ?_, fun l hl => ?_, fun h => ?_, fun l hl => ?_⟩
  · rw [mp4_artists_eq, h]
    rfl
  · rw [mp4_artists_eq] at hl
    split at hl
    · exact absurd hl (by simp)
    · rename_i he
      intro hn
      apply he
      injection hl with h2
      rw [h2, hn]
      rfl
  · unfold Mp4Tag.album_artists
    rw [h]
    rfl
  · unfold Mp4Tag.album_artists at hl
    split at hl
    · exact absurd hl (by simp)
    · rename_i he
      intro hn
      apply he
      injection hl with h2
      rw [h2, hn]
      rfl

/-- Witness for C7 at the freshly constructed adapter. -/
theorem mp4_zero_artists_is_none_witness :
    Mp4Tag.new.inner.artists = [] ∧ Mp4Tag.new.artists = none :=
  ⟨rfl, (mp4_zero_artists_is_none Mp4Tag.new).1 rfl⟩

/-- The supported image encodings of the `Picture` conversion. -/
def isSupportedImage (d : Mp4Data) : Bool :=
  match d with
  | Mp4Data.png _ => true
  | Mp4Data.jpeg _ => true
  | _ => false

/-- C8: converting a format-native artwork value to a `Picture` succeeds
exactly when its encoding is `Png` or `Jpeg`, and fails with the error value
`NotAPicture` otherwise (the conversion is a total function into `Except`). -/
theorem picture_tryfrom_supported (d : Mp4Data) :
    ((∃ p, pictureTryFromData d = Except.ok p) ↔ isSupportedImage d = true) ∧
    (isSupportedImage d = false →
      pictureTryFromData d = Except.error Error.notAPicture) := by
  cases d <;> simp [pictureTryFromData, isSupportedImage]

/-- Witness for C8: a text atom is not a supported image and converts to the
`NotAPicture` error. -/
theorem picture_tryfrom_supported_witness :
    isSupportedImage (Mp4Data.utf8 "lyrics") = false ∧
    pictureTryFromData (Mp4Data.utf8 "lyrics") =
      Except.error Error.notAPicture :=
  ⟨by decide, (picture_tryfrom_supported (Mp4Data.utf8 "lyrics")).2 (by decide)⟩

/-- C9: `set_album_cover` completes (returns a new adapter state) exactly for
`Png` and `Jpeg` pictures; for every other mime type it takes the `panic!`
branch, modelled by `none`. -/
theorem mp4_set_album_cover_panics_iff (t : Mp4Tag) (p : Picture) :
    (∃ t2, t.set_album_cover p = some t2) ↔
      (p.mime_type = MimeType.png ∨ p.mime_type = MimeType.jpeg) := by
  obtain ⟨d, m⟩ := p
  cases m <;> simp [Mp4Tag.set_album_cover]

/-! ### Normalization round trip (C1). -/

theorem mp4_year_bounds (t : Mp4Tag) (y : Int) (h : t.year = some y) :
    -2147483648 ≤ y ∧ y < 2147483648 := by
  unfold Mp4Tag.year at h
  cases hy : t.inner.year with
  | none =>
    rw [hy] at h
    exact absurd h (by simp)
  | some s =>
    rw [hy] at h
    exact parseI32Chars_range s.data y h

/-- Converting a Normalized Tag into a fresh MP4 adapter and reading it back
reproduces the tag except for the album cover, which `mp4TagFromAny` never
applies.  The hypotheses state exactly the invariants every
`anyTagFromMp4`-produced tag satisfies. -/
theorem mp4_roundtrip_core (a : AnyTag)
    (hart : ∀ l, a.artists = some l → l ≠ [])
    (halb : ∀ l, a.album.artists = some l → l ≠ [])
    (hyear : ∀ y, a.year = some y → -2147483648 ≤ y ∧ y < 2147483648)
    (htn : ∀ n, a.track_number = some n → n < 65536)
    (htt : ∀ n, a.total_tracks = some n → n < 65536)
    (hdn : ∀ n, a.disc_number = some n → n < 65536)
    (htd : ∀ n, a.total_discs = some n → n < 65536)
    (hcm : a.comments = none) (hdt : a.date = none)
    (hdu : a.duration_ms = none) :
    anyTagFromMp4 (mp4TagFromAny a) =
      { a with album := { a.album with cover := none } } := by
  have hI := mp4TagFromAny_inner a
  unfold anyTagFromMp4
  simp only [Mp4Tag.title, Mp4Tag.year, Mp4Tag.album_title,
    Mp4Tag.album_artists, Mp4Tag.album_cover, Mp4Tag.track, Mp4Tag.disc,
    Mp4Tag.track_number, Mp4Tag.total_tracks, Mp4Tag.disc_number,
    Mp4Tag.total_discs, mp4_artists_eq, hI, Album.new]
  refine AnyTag.ext rfl ?_ ?_ ?_ ?_ ?_ ?_ ?_ hcm.symm hdt.symm hdu.symm
  · show (if (a.artists.getD []).isEmpty then none
        else some (a.artists.getD [])).map (fun i => i) = a.artists
    cases ha : a.artists with
    | none => rfl
    | some l =>
      cases l with
      | nil => exact absurd rfl (hart [] ha)
      | cons x xs => simp
  · show ((a.year.map i32ToString).bind parseI32Str).map (fun y => y) = a.year
    cases ha : a.year with
    | none => rfl
    | some y =>
      obtain ⟨hlo, hhi⟩ := hyear y ha
      show (parseI32Str (i32ToString y)).map (fun y => y) = some y
      rw [parseI32_i32ToString y hlo hhi]
      rfl
  · refine Album.ext rfl ?_ rfl
    show (if (a.album.artists.getD []).isEmpty then none
        else some (a.album.artists.getD [])) = a.album.artists
    cases ha : a.album.artists with
    | none => rfl
    | some l =>
      cases l with
      | nil => exact absurd rfl (halb [] ha)
      | cons x xs => simp
  · show a.track_number.map (fun v => v % 65536) = a.track_number
    cases ha : a.track_number with
    | none => rfl
    | some n =>
      have := htn n ha
      exact congrArg some (Nat.mod_eq_of_lt this)
  · show a.total_tracks.map (fun v => v % 65536) = a.total_tracks
    cases ha : a.total_tracks with
    | none => rfl
    | some n =>
      have := htt n ha
      exact congrArg some (Nat.mod_eq_of_lt this)
  · show a.disc_number.map (fun v => v % 65536) = a.disc_number
    cases ha : a.disc_number with
    | none => rfl
    | some n =>
      have := hdn n ha
      exact congrArg some (Nat.mod_eq_of_lt this)
  · show a.total_discs.map (fun v => v % 65536) = a.total_discs
    cases ha : a.total_discs with
    | none => rfl
    | some n =>
      have := htd n ha
      exact congrArg some (Nat.mod_eq_of_lt this)

theorem option_map_id {α : Type} (o : Option α) : o.map (fun i => i) = o := by
  cases o <;> rfl

/-- An MP4 adapter whose only populated atom is a PNG album cover. -/
def mp4CoverTag : Mp4Tag :=
  ⟨⟨none, [], none, none, [], some (Mp4Data.png [1]), none, none, none, none⟩⟩

/-- C1 counterexample: starting from an adapter holding a PNG cover, the
`from`-`into`-`from` round trip is not the identity on the Normalized Tag,
because `mp4TagFromAny` never applies the album cover. -/
theorem mp4_normalization_not_idempotent :
    anyTagFromMp4 (mp4TagFromAny (anyTagFromMp4 mp4CoverTag)) ≠
      anyTagFromMp4 mp4CoverTag := by
  decide

/-- C1 (amended): for every adapter whose numeric atoms are representable
(`u16` range), `from` then `into` a fresh adapter then `from` again yields a
Normalized Tag identical field-for-field EXCEPT the album cover, which the
round trip always drops to `none`. -/
theorem mp4_normalization_roundtrip_drops_cover (t : Mp4Tag)
    (h1 : t.inner.track_number.getD 0 < 65536)
    (h2 : t.inner.total_tracks.getD 0 < 65536)
    (h3 : t.inner.disc_number.getD 0 < 65536)
    (h4 : t.inner.total_discs.getD 0 < 65536) :
    anyTagFromMp4 (mp4TagFromAny (anyTagFromMp4 t)) =
      { anyTagFromMp4 t with album :=
          { (anyTagFromMp4 t).album with cover := none } } := by
  apply mp4_roundtrip_core
  · intro l hl
    simp only [anyTagFromMp4] at hl
    rw [option_map_id, mp4_artists_eq] at hl
    split at hl
    · exact absurd hl (by simp)
    · rename_i he
      injection hl with hl2
      intro hn
      apply he
      rw [hl2, hn]
      rfl
  · intro l hl
    simp only [anyTagFromMp4, Album.new] at hl
    unfold Mp4Tag.album_artists at hl
    split at hl
    · exact absurd hl (by simp)
    · rename_i he
      injection hl with hl2
      intro hn
      apply he
      rw [hl2, hn]
      rfl
  · intro y hy
    simp only [anyTagFromMp4] at hy
    rw [option_map_id] at hy
    exact mp4_year_bounds t y hy
  · intro n hn
    simp only [anyTagFromMp4, Mp4Tag.track, Mp4Tag.track_number] at hn
    rw [hn] at h1
    simpa using h1
  · intro n hn
    simp only [anyTagFromMp4, Mp4Tag.track, Mp4Tag.total_tracks] at hn
    rw [hn] at h2
    simpa using h2
  · intro n hn
    simp only [anyTagFromMp4, Mp4Tag.disc, Mp4Tag.disc_number] at hn
    rw [hn] at h3
    simpa using h3
  · intro n hn
    simp only [anyTagFromMp4, Mp4Tag.disc, Mp4Tag.total_discs] at hn
    rw [hn] at h4
    simpa using h4
  · rfl
  · rfl
  · rfl

/-- A fully populated MP4 adapter used as the round-trip witness input. -/
def mp4DemoTag : Mp4Tag :=
  ⟨⟨some "Song", ["A", "B"], some "1999", some "Alb", ["C"],
    some (Mp4Data.png [7]), some 3, some 12, some 1, some 2⟩⟩

/-- Witness for the amended C1 at the concrete adapter `mp4DemoTag`. -/
theorem mp4_normalization_roundtrip_witness :
    mp4DemoTag.inner.track_number.getD 0 < 65536 ∧
    mp4DemoTag.inner.total_tracks.getD 0 < 65536 ∧
    mp4DemoTag.inner.disc_number.getD 0 < 65536 ∧
    mp4DemoTag.inner.total_discs.getD 0 < 65536 ∧
    anyTagFromMp4 (mp4TagFromAny (anyTagFromMp4 mp4DemoTag)) =
      { anyTagFromMp4 mp4DemoTag with album :=
          { (anyTagFromMp4 mp4DemoTag).album with cover := none } } :=
  ⟨by decide, by decide, by decide, by decide,
    mp4_normalization_roundtrip_drops_cover mp4DemoTag (by decide) (by decide)
      (by decide) (by decide)⟩
